import Mathlib

/-!
Shallow embedding of the authorization core of the book-keeping dashboard:
the privilege model and checkers (`src/components/supplier_transaction/controls.tsx`),
the session-gate middleware (`src/middleware.ts`), the authenticated proxy with
retry (`src/app/api/proxy/[...path]/route.ts`), and the navigation menu filter
(`src/components/ui/nav.tsx`).

JavaScript strings are modelled as Lean `String`, with character-list based
implementations of `toLowerCase`, `toUpperCase`, `trim`, `startsWith`,
`includes`, `split(',')` and `replace(/ /g, '_')` so that all definitions
evaluate inside the kernel.  JavaScript objects used as string-keyed maps are
modelled as association lists in insertion order.  Network calls are modelled
as explicit oracle parameters; response bodies and headers that no claim
depends on are abstracted away.
-/

namespace BookApp

/- ------------------------------------------------------------------ -/
/- String primitives (ASCII semantics of the JS string methods used)  -/
/- ------------------------------------------------------------------ -/

/-- Lower-case a single ASCII character, as `String.prototype.toLowerCase`
does on the ASCII range. -/
def lowerChar (c : Char) : Char :=
  if 'A' ≤ c ∧ c ≤ 'Z' then Char.ofNat (c.toNat + 32) else c

/-- Upper-case a single ASCII character. -/
def upperChar (c : Char) : Char :=
  if 'a' ≤ c ∧ c ≤ 'z' then Char.ofNat (c.toNat - 32) else c

/-- `s.toLowerCase()`. -/
def strLower (s : String) : String := ⟨s.data.map lowerChar⟩

/-- `s.toUpperCase()`. -/
def strUpper (s : String) : String := ⟨s.data.map upperChar⟩

/-- Whitespace characters recognised by `trim` (ASCII subset). -/
def isWs (c : Char) : Bool := c == ' ' || c == '\t' || c == '\n' || c == '\r'

/-- `s.trim()`. -/
def strTrim (s : String) : String :=
  ⟨((s.data.dropWhile isWs).reverse.dropWhile isWs).reverse⟩

/-- `s.startsWith(p)`. -/
def strStartsWith (s p : String) : Bool := p.data.isPrefixOf s.data

/-- Contiguous-infix test on character lists. -/
def listInfix : List Char → List Char → Bool
  | needle, [] => needle.isEmpty
  | needle, c :: rest => needle.isPrefixOf (c :: rest) || listInfix needle rest

/-- `hay.includes(needle)`. -/
def strIncludes (hay needle : String) : Bool := listInfix needle.data hay.data

/-- Helper for `splitOnComma`, accumulating the current field reversed. -/
def splitCommaAux : List Char → List Char → List String
  | [], cur => [⟨cur.reverse⟩]
  | c :: rest, cur =>
    if c = ',' then ⟨cur.reverse⟩ :: splitCommaAux rest []
    else splitCommaAux rest (c :: cur)

/-- `s.split(',')`; like in JS, the empty string yields `[""]`. -/
def splitOnComma (s : String) : List String := splitCommaAux s.data []

/-- `s.replace(/ /g, '_')`: every space becomes an underscore. -/
def underscoreSpaces (s : String) : String :=
  ⟨s.data.map (fun c => if c = ' ' then '_' else c)⟩

/- ------------------------------------------------------------------ -/
/- Privilege data model (controls.tsx)                                 -/
/- ------------------------------------------------------------------ -/

/-- The TS status type `'active' | 'inactive' | boolean`. -/
inductive Status where
  | strActive
  | strInactive
  | boolTrue
  | boolFalse
deriving DecidableEq

/-- One privilege record `{ description, status }`. -/
structure Privilege where
  description : String
  status : Status
deriving DecidableEq

/-- `UserPrivileges`: a JS object mapping module keys to record lists,
modelled as an association list in insertion order. -/
abbrev UserPrivileges := List (String × List Privilege)

/-- JS object property read `m[k]` (first entry with key `k`). -/
def lookupAssoc {α : Type} : List (String × α) → String → Option α
  | [], _ => none
  | (k', v) :: rest, k => if k' = k then some v else lookupAssoc rest k

/-- JS object property write `m[k] = v`: overwrite in place if the key
exists, otherwise append it. -/
def setKey {α : Type} : List (String × α) → String → α → List (String × α)
  | [], k, v => [(k, v)]
  | (k', v') :: rest, k, v =>
    if k' = k then (k', v) :: rest else (k', v') :: setKey rest k v

/-- `Object.keys(m)`. -/
def keysOf {α : Type} (m : List (String × α)) : List String := m.map (·.1)

/-- The test `priv.status === true || priv.status === 'active'` used by every
checker in controls.tsx. -/
def isActive (s : Status) : Bool :=
  match s with
  | .strActive => true
  | .boolTrue => true
  | _ => false

/-- `isActive ? 'active' : 'inactive'` (status normalization). -/
def normalizeStatus (s : Status) : Status :=
  if isActive s then .strActive else .strInactive

/- ------------------------------------------------------------------ -/
/- Super-admin override helpers (controls.tsx lines 157-174)           -/
/- ------------------------------------------------------------------ -/

/-- `SUPER_ADMIN_ROLES` constant. -/
def SUPER_ADMIN_ROLES : List String := ["SUPER_ADMIN", "ADMIN", "CHAIRMAN"]

/-- Loading of `SUPER_ADMIN_EMAILS` from the comma-separated environment
value: `raw.split(',').map(e => e.trim().toLowerCase())`. -/
def parseSuperAdminEmails (raw : String) : List String :=
  (splitOnComma raw).map (fun e => strLower (strTrim e))

/-- `isSuperAdminByEmail`, with the loaded allow-list passed explicitly. -/
def isSuperAdminByEmail (emails : List String) (email : String) : Bool :=
  emails.contains (strLower email)

/-- `isSuperAdmin(roleCodes)`. -/
def isSuperAdmin (roleCodes : List String) : Bool :=
  roleCodes.any (fun role => SUPER_ADMIN_ROLES.contains (strUpper role))

/- ------------------------------------------------------------------ -/
/- Module-to-resource and action-to-pattern tables                     -/
/- ------------------------------------------------------------------ -/

/-- The `MODULE_TO_RESOURCE` table, verbatim. -/
def MODULE_TO_RESOURCE : List (String × String) :=
  [("Dashboard", "dashboard"),
   ("Brands", "brands"),
   ("Categories", "categories"),
   ("Sub Categories", "sub_categories"),
   ("UOM", "uoms"),
   ("Unit of Measurements", "uoms"),
   ("Academic Sessions", "academic_session_terms"),
   ("Classes", "school_classes"),
   ("Students", "students"),
   ("Teachers", "class_teachers"),
   ("Inventory", "inventory_items"),
   ("Inventory Transactions", "inventory_transactions"),
   ("Inventory Summary", "inventory_summary"),
   ("Suppliers", "suppliers"),
   ("Supplier Transactions", "supplier_transactions"),
   ("Entitlements", "class_inventory_entitlements"),
   ("StudentInventoryCollection", "student_inventory_collection"),
   ("Student Inventory Collection", "student_inventory_collection"),
   ("Distributions", "inventory_transactions"),
   ("Collection Summary", "inventory_summary"),
   ("Collection Report", "inventory_summary"),
   ("Users", "users"),
   ("Roles", "roles"),
   ("RoleMenus", "role_menus"),
   ("Student Inventory Report", "student_inventory_report"),
   ("Role Menus", "role_menus"),
   ("Privileges", "role_privileges"),
   ("RolePrivileges", "role_privileges"),
   ("Menus", "menus"),
   ("Settings", "settings")]

/-- The `ACTION_PATTERNS` table, verbatim. -/
def ACTION_PATTERNS : List (String × List String) :=
  [("read", ["Get all", "Get a", "Get an"]),
   ("get", ["Get all", "Get a", "Get an"]),
   ("create", ["Create a new", "Create an"]),
   ("update", ["Update a", "Update an"]),
   ("delete", ["Delete a", "Delete an"])]

/-- `getResourceKey`: table lookup with lower-case/underscore fallback. -/
def getResourceKey (moduleName : String) : String :=
  match lookupAssoc MODULE_TO_RESOURCE moduleName with
  | some r => r
  | none => underscoreSpaces (strLower moduleName)

/-- `findPrivilegeModule`: exact key, then upper-cased key, then a
case-insensitive scan in insertion order. -/
def findPrivilegeModule (privileges : UserPrivileges) (resourceKey : String) :
    Option (List Privilege) :=
  match lookupAssoc privileges resourceKey with
  | some l => some l
  | none =>
    match lookupAssoc privileges (strUpper resourceKey) with
    | some l => some l
    | none =>
      match privileges.find? (fun kv => strLower kv.1 == strLower resourceKey) with
      | some kv => some kv.2
      | none => none

/- ------------------------------------------------------------------ -/
/- Per-role fetch normalization and the cross-role merge               -/
/- ------------------------------------------------------------------ -/

/-- Normalization applied by `fetchRolePrivileges` to every record. -/
def normalizePrivilege (p : Privilege) : Privilege :=
  ⟨p.description, normalizeStatus p.status⟩

/-- Normalization of a whole privilege map, module by module. -/
def normalizeUserPrivileges (m : UserPrivileges) : UserPrivileges :=
  m.map (fun kv => (kv.1, kv.2.map normalizePrivilege))

/-- `fetchRolePrivileges`, with the backend as an oracle: `none` models a
non-ok response or a network/parse error (both yield `{}`), `some data`
models a parsed `data.privileges` object, which is then normalized. -/
def fetchRolePrivileges (backend : String → Option UserPrivileges)
    (roleCode : String) : UserPrivileges :=
  match backend roleCode with
  | none => []
  | some data => normalizeUserPrivileges data

/-- `l.any(p => p.description === d)` (the `findIndex` hit test). -/
def containsDescr (d : String) (l : List Privilege) : Bool :=
  l.any (fun p => p.description == d)

/-- `merged[index].status = 'active'` where `index` is the first record with
the given description. -/
def setActiveFirst (d : String) : List Privilege → List Privilege
  | [] => []
  | p :: rest =>
    if p.description = d then ⟨p.description, .strActive⟩ :: rest
    else p :: setActiveFirst d rest

/-- One iteration of the `incoming.forEach` body of `mergePrivileges`. -/
def mergeStep (merged : List Privilege) (p : Privilege) : List Privilege :=
  if containsDescr p.description merged then
    if isActive p.status then setActiveFirst p.description merged else merged
  else
    merged ++ [⟨p.description, normalizeStatus p.status⟩]

/-- `mergePrivileges(existing, incoming)`. -/
def mergePrivileges (existing incoming : List Privilege) : List Privilege :=
  incoming.foldl mergeStep existing

/-- The per-role loop body of `fetchUserPrivilegesForRoles`:
`mergedPrivileges[module] = mergedPrivileges[module] ? mergePrivileges(...) : rolePrivs[module]`. -/
def mergeIntoMap (acc : UserPrivileges) (rolePrivs : UserPrivileges) : UserPrivileges :=
  rolePrivs.foldl
    (fun a kv =>
      match lookupAssoc a kv.1 with
      | some ex => setKey a kv.1 (mergePrivileges ex kv.2)
      | none => setKey a kv.1 kv.2)
    acc

/-- Merging an array of per-role maps into one consolidated map. -/
def mergeAll (maps : List UserPrivileges) : UserPrivileges :=
  maps.foldl mergeIntoMap []

/-- The wildcard privilege set `{"*": [{description: "ALL_PRIVILEGES", status: "active"}]}`. -/
def wildcardPrivileges : UserPrivileges :=
  [("*", [⟨"ALL_PRIVILEGES", .strActive⟩])]

/-- The truthiness test `userEmail && isSuperAdminByEmail(userEmail)`. -/
def emailBypass (emails : List String) (userEmail : Option String) : Bool :=
  match userEmail with
  | some e => (e != "") && isSuperAdminByEmail emails e
  | none => false

/-- `fetchUserPrivilegesForRoles`.  The second component of the result is the
list of role codes whose privileges were actually fetched from the backend
(empty on the super-admin short circuits). -/
def fetchUserPrivilegesForRoles (emails : List String)
    (backend : String → Option UserPrivileges)
    (roleCodes : List String) (userEmail : Option String) :
    UserPrivileges × List String :=
  if emailBypass emails userEmail then (wildcardPrivileges, [])
  else if isSuperAdmin roleCodes then (wildcardPrivileges, [])
  else (mergeAll (roleCodes.map (fetchRolePrivileges backend)), roleCodes)

/- ------------------------------------------------------------------ -/
/- The checkers                                                        -/
/- ------------------------------------------------------------------ -/

/-- The record test of `hasPrivilege`: case-insensitive substring match on
the description, conjoined with activity. -/
def privilegeMatchesDescr (needle : String) (priv : Privilege) : Bool :=
  strIncludes (strLower priv.description) (strLower needle) && isActive priv.status

/-- `hasPrivilege(privileges, privilegeDescription, module?)`.  A `some ""`
module argument is falsy in JS and behaves like `none`. -/
def hasPrivilege (privileges : UserPrivileges) (privilegeDescription : String)
    (mod : Option String) : Bool :=
  if (lookupAssoc privileges "*").isSome then true
  else
    match mod with
    | some m =>
      if m != "" then
        match findPrivilegeModule privileges (getResourceKey m) with
        | none => false
        | some modulePrivileges =>
          modulePrivileges.any (privilegeMatchesDescr privilegeDescription)
      else
        privileges.any (fun kv => kv.2.any (privilegeMatchesDescr privilegeDescription))
    | none =>
      privileges.any (fun kv => kv.2.any (privilegeMatchesDescr privilegeDescription))

/-- `canPerformAction(privileges, moduleName, action)`. -/
def canPerformAction (privileges : UserPrivileges) (moduleName : String)
    (action : String) : Bool :=
  if (lookupAssoc privileges "*").isSome then true
  else
    let resourceKey := getResourceKey moduleName
    match findPrivilegeModule privileges resourceKey with
    | none => false
    | some modulePrivileges =>
      match lookupAssoc ACTION_PATTERNS (strLower action) with
      | none => false
      | some patterns =>
        modulePrivileges.any (fun priv =>
          patterns.any (fun pattern => strStartsWith (strTrim priv.description) pattern)
            && isActive priv.status)

/- ------------------------------------------------------------------ -/
/- Remaining module helpers of controls.tsx                            -/
/- ------------------------------------------------------------------ -/

/-- `getModulePrivileges(privileges, moduleName)`. -/
def getModulePrivileges (privileges : UserPrivileges) (moduleName : String) :
    List Privilege :=
  if (lookupAssoc privileges "*").isSome then [⟨"ALL_PRIVILEGES", .strActive⟩]
  else
    match findPrivilegeModule privileges (getResourceKey moduleName) with
    | none => []
    | some modulePrivileges =>
      (modulePrivileges.filter (fun p => isActive p.status)).map
        (fun p => ⟨p.description, .strActive⟩)

/-- `hasAnyPrivilegeInModule(privileges, moduleName)`. -/
def hasAnyPrivilegeInModule (privileges : UserPrivileges) (moduleName : String) :
    Bool :=
  if (lookupAssoc privileges "*").isSome then true
  else
    match findPrivilegeModule privileges (getResourceKey moduleName) with
    | none => false
    | some modulePrivileges => modulePrivileges.any (fun p => isActive p.status)

/- ------------------------------------------------------------------ -/
/- Session Gate (middleware.ts)                                        -/
/- ------------------------------------------------------------------ -/

/-- Outcome of the token-verification fetch: an ok response carrying the
parsed `userData?.user?.email`, a non-ok response with its status code, or a
thrown network/parse error. -/
inductive VerifyOut where
  | ok (userEmail : Option String)
  | httpStatus (code : Nat)
  | netFail
deriving DecidableEq

/-- Parsed body of a successful refresh response. -/
structure RefreshData where
  access : String
  refresh : Option String
deriving DecidableEq

/-- The inbound request as seen by the middleware: its two session cookies. -/
structure MwReq where
  token : Option String
  refreshToken : Option String
deriving DecidableEq

/-- Observable effect of the middleware: where it redirects, which cookies it
deletes or sets, whether the super-admin marker header is present, and
whether the verification endpoint was fetched at all. -/
structure MwRes where
  redirectTo : Option String
  deletedCookies : List String
  setCookies : List (String × String)
  superAdminHeader : Bool
  verifyCalled : Bool
deriving DecidableEq

/-- `redirectToLogin(request)`: redirect to `/login` deleting both session
cookies.  The flag records whether verification had been attempted first. -/
def redirectToLogin (verifyCalled : Bool) : MwRes :=
  ⟨some "/login", ["token", "refresh_token"], [], false, verifyCalled⟩

/-- `setAuthCookies(response, data)`: the cookies written after a successful
refresh (the refresh cookie only when the response carried one). -/
def setAuthCookies (data : RefreshData) : List (String × String) :=
  ("token", data.access) ::
    (match data.refresh with
     | some r => [("refresh_token", r)]
     | none => [])

/-- `middleware(request)`, with the super-admin email list (already split and
trimmed), the verify fetch and the refresh fetch as oracles.  `attemptTokenRefresh`
is folded in as `refreshOut` (`none` covers both a non-ok refresh response and
a thrown error, which the source maps to `null`). -/
def middleware (emails : List String) (verify : VerifyOut)
    (refreshOut : Option RefreshData) (req : MwReq) : MwRes :=
  let token := req.token.getD ""
  if token = "" then redirectToLogin false
  else
    match verify with
    | .ok userEmail =>
      match userEmail with
      | some e =>
        if (e != "") && emails.contains e then ⟨none, [], [], true, true⟩
        else ⟨none, [], [], false, true⟩
      | none => ⟨none, [], [], false, true⟩
    | .httpStatus code =>
      if code = 401 ∧ req.refreshToken.getD "" ≠ "" then
        match refreshOut with
        | some d => ⟨none, [], setAuthCookies d, false, true⟩
        | none => redirectToLogin true
      else redirectToLogin true
    | .netFail => redirectToLogin true

/- ------------------------------------------------------------------ -/
/- Authenticated proxy (route.ts)                                      -/
/- ------------------------------------------------------------------ -/

/-- `MAX_RETRIES`. -/
def MAX_RETRIES : Nat := 8

/-- `INITIAL_RETRY_DELAY` in milliseconds. -/
def INITIAL_RETRY_DELAY : Nat := 2000

/-- `MAX_TOTAL_WAIT_TIME` in milliseconds (one hour). -/
def MAX_TOTAL_WAIT_TIME : Nat := 60 * 60 * 1000

/-- `Math.min(INITIAL_RETRY_DELAY * Math.pow(2, attempt), 32000)`. -/
def retryDelay (attempt : Nat) : Nat :=
  min (INITIAL_RETRY_DELAY * 2 ^ attempt) 32000

/-- Outcome of one backend fetch: a response with a status code, or a thrown
network error. -/
inductive FetchOut where
  | resp (status : Nat)
  | err
deriving DecidableEq

/-- The error finally thrown by `fetchWithRetry`, by kind. -/
inductive ErrKind where
  | noErr
  | timeoutErr
  | networkErr
deriving DecidableEq

/-- Result of `fetchWithRetry`: either a returned response or a thrown error. -/
inductive RetryResult where
  | returned (status : Nat)
  | threw (e : ErrKind)
deriving DecidableEq

/-- Trace of one `fetchWithRetry` call: its result, how many backend fetches
it performed, and the sleep durations (ms) it awaited, in order. -/
structure RetryTrace where
  result : RetryResult
  fetches : Nat
  sleeps : List Nat
deriving DecidableEq

/-- The retry loop of `fetchWithRetry`, unrolled on remaining fuel
(`fuel = MAX_RETRIES - attempt` at every reachable state).  `resp n` is the
outcome of the `n`-th fetch issued and `dur n` its wall-clock duration in ms;
`clock` is `Date.now() - startTime` at the top of the iteration.  The timeout
`Error` raised inside the `try` block lands in the `catch`, so like any other
caught error it is either rethrown on the last attempt or retried after the
backoff sleep. -/
def goRetry (resp : Nat → FetchOut) (dur : Nat → Nat) :
    Nat → Nat → Nat → Nat → List Nat → ErrKind → RetryTrace
  | 0, _, _, fetches, sleeps, lastErr => ⟨.threw lastErr, fetches, sleeps⟩
  | fuel + 1, attempt, clock, fetches, sleeps, lastErr =>
    if clock > MAX_TOTAL_WAIT_TIME then
      if attempt = MAX_RETRIES - 1 then ⟨.threw .timeoutErr, fetches, sleeps⟩
      else
        goRetry resp dur fuel (attempt + 1) (clock + retryDelay attempt) fetches
          (sleeps ++ [retryDelay attempt]) .timeoutErr
    else
      match resp fetches with
      | .resp s =>
        if (s = 502 ∨ s = 503) ∧ attempt < MAX_RETRIES - 1 then
          goRetry resp dur fuel (attempt + 1)
            (clock + dur fetches + retryDelay attempt) (fetches + 1)
            (sleeps ++ [retryDelay attempt]) lastErr
        else ⟨.returned s, fetches + 1, sleeps⟩
      | .err =>
        if attempt = MAX_RETRIES - 1 then ⟨.threw .networkErr, fetches + 1, sleeps⟩
        else
          goRetry resp dur fuel (attempt + 1)
            (clock + dur fetches + retryDelay attempt) (fetches + 1)
            (sleeps ++ [retryDelay attempt]) .networkErr

/-- `fetchWithRetry(url, options, ...)` for one forwarded request. -/
def fetchWithRetry (resp : Nat → FetchOut) (dur : Nat → Nat) : RetryTrace :=
  goRetry resp dur MAX_RETRIES 0 0 0 [] .noErr

/-- The inbound request as seen by the proxy handler (fields that influence
control flow; body and remaining headers are passed through and abstracted). -/
structure ProxyReq where
  token : Option String
  method : String
  path : List String
  search : String
deriving DecidableEq

/-- Observable effect of `handleRequest`: the response status and the number
of backend fetches performed. -/
structure ProxyRes where
  status : Nat
  fetches : Nat
deriving DecidableEq

/-- `handleRequest(request, context)` at the status level: the missing-token
401 guard, the retrying fetch, the DELETE-204 special case, and the verbatim
passthrough of the backend status (both the error branch and the JSON/raw
branches reuse `backendRes.status`); a thrown error is caught and mapped to
500. -/
def handleRequest (resp : Nat → FetchOut) (dur : Nat → Nat) (req : ProxyReq) :
    ProxyRes :=
  match req.token with
  | none => ⟨401, 0⟩
  | some t =>
    if t = "" then ⟨401, 0⟩
    else
      let trace := fetchWithRetry resp dur
      match trace.result with
      | .threw _ => ⟨500, trace.fetches⟩
      | .returned s =>
        if req.method = "DELETE" ∧ s = 204 then ⟨204, trace.fetches⟩
        else ⟨s, trace.fetches⟩

/- ------------------------------------------------------------------ -/
/- Navigation menu filter (nav.tsx)                                    -/
/- ------------------------------------------------------------------ -/

/-- A menu entry (the fields the filter logic reads). -/
structure Menu where
  id : String
  route : String
  caption : String
deriving DecidableEq

/-- The `MENU_PRIVILEGES` route-to-privilege table, verbatim. -/
def MENU_PRIVILEGES : List (String × (String × String)) :=
  [("/dashboard", ("Academic Sessions", "read")),
   ("/academic-sessions", ("Academic Sessions", "read")),
   ("/brands", ("Brands", "read")),
   ("/categories", ("Categories", "read")),
   ("/sub-categories", ("Sub Categories", "read")),
   ("/unit-of-measurements", ("UOM", "read")),
   ("/inventory-items", ("Inventory", "read")),
   ("/entitlements", ("Entitlements", "read")),
   ("/suppliers", ("Suppliers", "read")),
   ("/classes", ("Classes", "read")),
   ("/teachers", ("Teachers", "read")),
   ("/students", ("Students", "read")),
   ("/supplier-transactions", ("Supplier Transactions", "read")),
   ("/student-collections", ("Student Inventory Collection", "read")),
   ("/distributions", ("Distributions", "read")),
   ("/collection-summary", ("Collection Summary", "read")),
   ("/collection-report", ("Collection Report", "read")),
   ("/users", ("Users", "read")),
   ("/roles", ("Roles", "read")),
   ("/privileges", ("Privileges", "read")),
   ("/menus", ("Menus", "read")),
   ("/settings", ("Settings", "read"))]

/-- The `DEVELOPER_MENUS` fallback list (id, route, caption; the `order`
field is display-only and unused by the filter). -/
def DEVELOPER_MENUS : List Menu :=
  [⟨"dev-1", "/dashboard", "Academic Session"⟩,
   ⟨"dev-2", "/brands", "Brands"⟩,
   ⟨"dev-3", "/categories", "Categories"⟩,
   ⟨"dev-4", "/subCategories", "Sub Categories"⟩,
   ⟨"dev-5", "/uom", "Units of Measure"⟩,
   ⟨"dev-6", "/inventoryItem", "Inventory Items"⟩,
   ⟨"dev-7", "/classInventoryEntitlment", "Inventory Entitlement"⟩,
   ⟨"dev-8", "/suppliers", "Suppliers"⟩,
   ⟨"dev-9", "/user", "Users"⟩,
   ⟨"dev-10", "/classes", "Classes"⟩,
   ⟨"dev-11", "/classTeachers", "Class Teachers"⟩,
   ⟨"dev-12", "/transactionItem", "Purchase"⟩,
   ⟨"dev-13", "/students", "Students"⟩,
   ⟨"dev-14", "/studentInventoryEntitlement", "Student Collection"⟩,
   ⟨"dev-15", "/inventoryDistrbution", "Inventory Distributions"⟩,
   ⟨"dev-16", "/inventorySummary", "Inventory Summary"⟩,
   ⟨"dev-17", "/studentsReport", "Students Report"⟩,
   ⟨"dev-18", "/supplierTransaction", "Supplier Transaction"⟩,
   ⟨"dev-19", "/roles", "Roles"⟩,
   ⟨"dev-20", "/rolesPrivilage", "Role Privileges"⟩,
   ⟨"dev-21", "/menu", "Menus"⟩,
   ⟨"dev-22", "/rolesMenu", "Role Menus"⟩]

/-- The per-menu predicate of the `menus.filter` call: unmapped routes are
shown, mapped routes require the mapped privilege.  The user context wires
`canPerformAction(module, action)` to `canPerformAction(privileges, module, action)`. -/
def menuAllowed (privs : UserPrivileges) (menu : Menu) : Bool :=
  match lookupAssoc MENU_PRIVILEGES menu.route with
  | none => true
  | some ma => canPerformAction privs ma.1 ma.2

/-- The `authorizedMenus` memo of `VerticalNav`: developer fallback for an
empty server list, super-admin passthrough, privilege filter, and the
emergency show-all fallback when nothing passes. -/
def authorizedMenus (privs : UserPrivileges) (superAdminFlag : Bool)
    (menus : List Menu) : List Menu :=
  if menus.length = 0 then DEVELOPER_MENUS
  else if superAdminFlag then menus
  else
    let filtered := menus.filter (menuAllowed privs)
    if filtered.length = 0 then
      if menus.length > 0 then menus else filtered
    else filtered

/- ------------------------------------------------------------------ -/
/- Helper lemmas                                                       -/
/- ------------------------------------------------------------------ -/

/-- Without a wildcard entry, `canPerformAction` is the module lookup
followed by the pattern test. -/
lemma canPerformAction_no_wildcard (privs : UserPrivileges) (m a : String)
    (hw : lookupAssoc privs "*" = none) :
    canPerformAction privs m a =
      match findPrivilegeModule privs (getResourceKey m) with
      | none => false
      | some modulePrivileges =>
        match lookupAssoc ACTION_PATTERNS (strLower a) with
        | none => false
        | some patterns =>
          modulePrivileges.any (fun priv =>
            patterns.any (fun pattern => strStartsWith (strTrim priv.description) pattern)
              && isActive priv.status) := by
  unfold canPerformAction
  rw [hw]
  rfl

/-- An action key outside the five known ones misses `ACTION_PATTERNS`. -/
lemma actionPatterns_lookup_none (a : String)
    (h : a ∉ ["create", "read", "update", "delete", "get"]) :
    lookupAssoc ACTION_PATTERNS a = none := by
  simp only [List.mem_cons, List.not_mem_nil, or_false, not_or] at h
  obtain ⟨hc, hr, hu, hd, hg⟩ := h
  unfold ACTION_PATTERNS
  simp only [lookupAssoc]
  rw [if_neg (Ne.symm hr), if_neg (Ne.symm hg), if_neg (Ne.symm hc),
    if_neg (Ne.symm hu), if_neg (Ne.symm hd)]

/- ------------------------------------------------------------------ -/
/- Claim theorems                                                      -/
/- ------------------------------------------------------------------ -/

/-- C1: a privilege set containing the wildcard module key makes
`canPerformAction` return true for every module label and action, including
labels with no entry in the module-to-resource mapping. -/
theorem wildcard_grants_every_action (privs : UserPrivileges)
    (moduleLabel action : String)
    (hw : (lookupAssoc privs "*").isSome = true) :
    canPerformAction privs moduleLabel action = true := by
  unfold canPerformAction
  rw [if_pos hw]

/-- Witness for C1 at the wildcard set, an unmapped module label and an
arbitrary action. -/
theorem wildcard_grants_every_action_witness :
    (lookupAssoc wildcardPrivileges "*").isSome = true
    ∧ canPerformAction wildcardPrivileges "No Such Module" "create" = true :=
  ⟨rfl, wildcard_grants_every_action wildcardPrivileges "No Such Module" "create" rfl⟩

/-- C2: without a wildcard, `canPerformAction(privileges, "Sub Categories",
"create")` is true iff the module list located (case-insensitively) under the
resource key `sub_categories` has an active record whose trimmed description
starts with "Create a new" or "Create an". -/
theorem subCategories_create_iff (privs : UserPrivileges)
    (hw : lookupAssoc privs "*" = none) :
    canPerformAction privs "Sub Categories" "create" = true ↔
      ∃ l, findPrivilegeModule privs "sub_categories" = some l ∧
        ∃ p ∈ l, isActive p.status = true ∧
          (strStartsWith (strTrim p.description) "Create a new" = true ∨
           strStartsWith (strTrim p.description) "Create an" = true) := by
  rw [canPerformAction_no_wildcard privs _ _ hw]
  rw [show getResourceKey "Sub Categories" = "sub_categories" from by decide]
  rw [show lookupAssoc ACTION_PATTERNS (strLower "create")
      = some ["Create a new", "Create an"] from by decide]
  cases hfind : findPrivilegeModule privs "sub_categories" with
  | none => simp
  | some l =>
    simp only [Option.some.injEq, List.any_eq_true, Bool.and_eq_true, Bool.or_eq_true,
      List.any_cons, List.any_nil, Bool.or_false]
    constructor
    · rintro ⟨p, hp, hpat, hact⟩
      exact ⟨l, rfl, p, hp, hact, hpat⟩
    · rintro ⟨l', hl', p, hp, hact, hpat⟩
      cases hl'
      exact ⟨p, hp, hpat, hact⟩

/-- Witness for C2 at a privilege set whose backend-cased module key matches
`sub_categories` only case-insensitively. -/
theorem subCategories_create_iff_witness :
    lookupAssoc [("SUB_CATEGORIES", [(⟨"Create a new sub category", .strActive⟩ : Privilege)])] "*" = none
    ∧ (canPerformAction [("SUB_CATEGORIES", [(⟨"Create a new sub category", .strActive⟩ : Privilege)])] "Sub Categories" "create" = true ↔
        ∃ l, findPrivilegeModule [("SUB_CATEGORIES", [(⟨"Create a new sub category", .strActive⟩ : Privilege)])] "sub_categories" = some l ∧
          ∃ p ∈ l, isActive p.status = true ∧
            (strStartsWith (strTrim p.description) "Create a new" = true ∨
             strStartsWith (strTrim p.description) "Create an" = true)) :=
  ⟨by decide, subCategories_create_iff _ (by decide)⟩

/-- C4: the super-admin email bypass (non-empty email on the loaded,
lower-cased allow-list) or a super-admin role code makes
`fetchUserPrivilegesForRoles` return the wildcard privilege set with no
per-role fetch, even for an empty role list. -/
theorem superAdmin_bypass_returns_wildcard (emails : List String)
    (backend : String → Option UserPrivileges)
    (roleCodes : List String) (userEmail : Option String)
    (h : (∃ e, userEmail = some e ∧ e ≠ "" ∧ isSuperAdminByEmail emails e = true)
         ∨ isSuperAdmin roleCodes = true) :
    fetchUserPrivilegesForRoles emails backend roleCodes userEmail
      = (wildcardPrivileges, []) := by
  unfold fetchUserPrivilegesForRoles
  rcases h with ⟨e, he, hne, hsa⟩ | hrole
  · subst he
    have hb : emailBypass emails (some e) = true := by
      simp [emailBypass, hsa, bne, hne]
    rw [if_pos hb]
  · by_cases hb : emailBypass emails userEmail = true
    · rw [if_pos hb]
    · rw [if_neg hb, if_pos hrole]

/-- Witness for C4: a case-different allow-listed email with an empty role
list gets the wildcard set and no fetches. -/
theorem superAdmin_bypass_returns_wildcard_witness :
    fetchUserPrivilegesForRoles (parseSuperAdminEmails " Admin@X.com ,b@y.com")
      (fun _ => none) [] (some "ADMIN@x.COM") = (wildcardPrivileges, []) :=
  superAdmin_bypass_returns_wildcard _ _ _ _
    (Or.inl ⟨"ADMIN@x.COM", rfl, by decide, by decide⟩)

/-- C5: a request with no access-token cookie is redirected to `/login` by
the middleware with both session cookies cleared and no verification fetch,
and is answered 401 by the proxy with zero backend fetches. -/
theorem no_token_redirect_and_401 (emails : List String) (verify : VerifyOut)
    (refreshOut : Option RefreshData) (refreshTok : Option String)
    (resp : Nat → FetchOut) (dur : Nat → Nat)
    (method : String) (path : List String) (search : String) :
    middleware emails verify refreshOut ⟨none, refreshTok⟩
      = ⟨some "/login", ["token", "refresh_token"], [], false, false⟩
    ∧ handleRequest resp dur ⟨none, method, path, search⟩ = ⟨401, 0⟩ :=
  ⟨rfl, rfl⟩

/-- C7 counterexample: with the wildcard privilege set, `canPerformAction`
returns true even for the unknown action "fly", so the unconditional claim
that unknown actions always yield false is refuted. -/
theorem unknown_action_claim_counterexample :
    strLower "fly" ∉ ["create", "read", "update", "delete", "get"]
    ∧ canPerformAction wildcardPrivileges "Brands" "fly" = true := by decide

/-- C7 amended: for privilege sets without the wildcard key, an action whose
lower-cased form is not one of create/read/update/delete/get yields false. -/
theorem unknown_action_denied_without_wildcard (privs : UserPrivileges)
    (moduleLabel action : String)
    (hw : lookupAssoc privs "*" = none)
    (ha : strLower action ∉ ["create", "read", "update", "delete", "get"]) :
    canPerformAction privs moduleLabel action = false := by
  rw [canPerformAction_no_wildcard privs _ _ hw]
  rw [actionPatterns_lookup_none _ ha]
  cases findPrivilegeModule privs (getResourceKey moduleLabel) <;> rfl

/-- Witness for the amended C7 at a concrete non-wildcard set and action. -/
theorem unknown_action_denied_without_wildcard_witness :
    lookupAssoc [("BRANDS", [(⟨"Get all Brands", .strActive⟩ : Privilege)])] "*" = none
    ∧ strLower "fly" ∉ ["create", "read", "update", "delete", "get"]
    ∧ canPerformAction [("BRANDS", [(⟨"Get all Brands", .strActive⟩ : Privilege)])] "Brands" "fly" = false :=
  ⟨by decide, by decide,
    unknown_action_denied_without_wildcard _ "Brands" "fly" (by decide) (by decide)⟩

/- ------------------------------------------------------------------ -/
/- Normalization transparency (C10)                                    -/
/- ------------------------------------------------------------------ -/

/-- Activity is unchanged by status normalization. -/
lemma isActive_normalizeStatus (s : Status) :
    isActive (normalizeStatus s) = isActive s := by
  cases s <;> rfl

/-- Key lookup through a normalized map. -/
lemma lookupAssoc_normalize (m : UserPrivileges) (k : String) :
    lookupAssoc (normalizeUserPrivileges m) k
      = (lookupAssoc m k).map (List.map normalizePrivilege) := by
  induction m with
  | nil => rfl
  | cons kv rest ih =>
    by_cases h : kv.1 = k <;> simp [normalizeUserPrivileges, lookupAssoc, h] <;>
      simpa [normalizeUserPrivileges] using ih

/-- Case-insensitive scan through a normalized map. -/
lemma find_normalize (m : UserPrivileges) (key : String) :
    (normalizeUserPrivileges m).find? (fun kv => strLower kv.1 == strLower key)
      = (m.find? (fun kv => strLower kv.1 == strLower key)).map
          (fun kv => (kv.1, kv.2.map normalizePrivilege)) := by
  induction m with
  | nil => rfl
  | cons kv rest ih =>
    by_cases h : (strLower kv.1 == strLower key) = true <;>
      simp [normalizeUserPrivileges, List.find?_cons, h] <;>
      simpa [normalizeUserPrivileges] using ih

/-- Module resolution through a normalized map. -/
lemma findPrivilegeModule_normalize (m : UserPrivileges) (key : String) :
    findPrivilegeModule (normalizeUserPrivileges m) key
      = (findPrivilegeModule m key).map (List.map normalizePrivilege) := by
  unfold findPrivilegeModule
  rw [lookupAssoc_normalize, lookupAssoc_normalize, find_normalize]
  cases lookupAssoc m key <;>
    cases lookupAssoc m (strUpper key) <;>
    cases m.find? (fun kv => strLower kv.1 == strLower key) <;> rfl

/-- A predicate invariant under record normalization is unchanged by mapping
the normalization over a list. -/
lemma any_map_normalize (l : List Privilege) (f : Privilege → Bool)
    (hf : ∀ p, f (normalizePrivilege p) = f p) :
    (l.map normalizePrivilege).any f = l.any f := by
  induction l with
  | nil => rfl
  | cons p rest ih => simp [hf, ih]

/-- The record test of `canPerformAction` is normalization-invariant. -/
lemma actionTest_normalize (patterns : List String) (p : Privilege) :
    (patterns.any (fun pattern => strStartsWith (strTrim (normalizePrivilege p).description) pattern)
        && isActive (normalizePrivilege p).status)
      = (patterns.any (fun pattern => strStartsWith (strTrim p.description) pattern)
          && isActive p.status) := by
  simp [normalizePrivilege, isActive_normalizeStatus]

/-- The record test of `hasPrivilege` is normalization-invariant. -/
lemma privilegeMatchesDescr_normalize (needle : String) (p : Privilege) :
    privilegeMatchesDescr needle (normalizePrivilege p)
      = privilegeMatchesDescr needle p := by
  simp [privilegeMatchesDescr, normalizePrivilege, isActive_normalizeStatus]

/-- The all-modules scan of `hasPrivilege` is normalization-invariant. -/
lemma any_scan_normalize (privs : UserPrivileges) (descr : String) :
    (normalizeUserPrivileges privs).any
        (fun kv => kv.2.any (privilegeMatchesDescr descr))
      = privs.any (fun kv => kv.2.any (privilegeMatchesDescr descr)) := by
  induction privs with
  | nil => rfl
  | cons kv rest ih =>
    simp only [normalizeUserPrivileges, List.map_cons, List.any_cons] at ih ⊢
    rw [any_map_normalize kv.2 _ (privilegeMatchesDescr_normalize descr), ih]

/-- C10: both public checkers treat a boolean-true status as active exactly
like the string "active", so they are insensitive to whether the privilege
set was first passed through status normalization. -/
theorem checkers_accept_unnormalized (privs : UserPrivileges)
    (moduleName action descr : String) (mod : Option String) :
    isActive Status.boolTrue = isActive Status.strActive
    ∧ canPerformAction (normalizeUserPrivileges privs) moduleName action
        = canPerformAction privs moduleName action
    ∧ hasPrivilege (normalizeUserPrivileges privs) descr mod
        = hasPrivilege privs descr mod := by
  refine ⟨rfl, ?_, ?_⟩
  · unfold canPerformAction
    rw [lookupAssoc_normalize]
    cases hw : lookupAssoc privs "*" with
    | some l => rfl
    | none =>
      simp only [Option.map_none, Option.isSome_none]
      rw [findPrivilegeModule_normalize]
      cases findPrivilegeModule privs (getResourceKey moduleName) with
      | none => rfl
      | some l =>
        cases lookupAssoc ACTION_PATTERNS (strLower action) with
        | none => rfl
        | some patterns =>
          simp only [Option.map_some]
          exact any_map_normalize l _ (actionTest_normalize patterns)
  · unfold hasPrivilege
    rw [lookupAssoc_normalize]
    cases hw : lookupAssoc privs "*" with
    | some l => rfl
    | none =>
      simp only [Option.map_none, Option.isSome_none]
      have hscan := any_scan_normalize privs descr
      cases mod with
      | none => exact hscan
      | some m =>
        by_cases hm : (m != "") = true
        · simp only [hm, if_true]
          rw [findPrivilegeModule_normalize]
          cases findPrivilegeModule privs (getResourceKey m) with
          | none => rfl
          | some l =>
            simp only [Option.map_some]
            exact any_map_normalize l _ (privilegeMatchesDescr_normalize descr)
        · simp only [Bool.not_eq_true] at hm
          simp only [hm, Bool.false_eq_true, if_false]
          exact hscan

/- ------------------------------------------------------------------ -/
/- Navigation fail-open (C9)                                           -/
/- ------------------------------------------------------------------ -/

/-- C9: for a non-empty server menu list, the menu filter fails open: a menu
whose route is unmapped in `MENU_PRIVILEGES` is always shown, and if no menu
passes the privilege filter the full unfiltered list is shown. -/
theorem nav_fails_open (privs : UserPrivileges) (superAdminFlag : Bool)
    (menus : List Menu) (hne : menus ≠ []) :
    (∀ menu ∈ menus, lookupAssoc MENU_PRIVILEGES menu.route = none →
        menu ∈ authorizedMenus privs superAdminFlag menus)
    ∧ (menus.filter (menuAllowed privs) = [] →
        authorizedMenus privs superAdminFlag menus = menus) := by
  have hlen : ¬ menus.length = 0 := by
    simpa [List.length_eq_zero] using hne
  constructor
  · intro menu hmenu hroute
    unfold authorizedMenus
    rw [if_neg hlen]
    by_cases hsa : superAdminFlag
    · rw [if_pos hsa]; exact hmenu
    · rw [if_neg hsa]
      have hallowed : menuAllowed privs menu = true := by
        unfold menuAllowed
        rw [hroute]
      have hmem : menu ∈ menus.filter (menuAllowed privs) :=
        List.mem_filter.mpr ⟨hmenu, hallowed⟩
      by_cases hf : (menus.filter (menuAllowed privs)).length = 0
      · rw [if_pos hf, if_pos (Nat.pos_of_ne_zero hlen)]
        exact hmenu
      · rw [if_neg hf]
        exact hmem
  · intro hempty
    unfold authorizedMenus
    rw [if_neg hlen]
    by_cases hsa : superAdminFlag
    · rw [if_pos hsa]
    · rw [if_neg hsa, hempty]
      simp [Nat.pos_of_ne_zero hlen]

/-- Witness for C9: a single menu with an unmapped route and an empty
privilege set is shown, and the empty-filter fallback returns the full list. -/
theorem nav_fails_open_witness :
    ((⟨"m1", "/unmapped-route", "X"⟩ : Menu)
        ∈ authorizedMenus [] false [⟨"m1", "/unmapped-route", "X"⟩])
    ∧ authorizedMenus [] false [⟨"m2", "/brands", "B"⟩] = [⟨"m2", "/brands", "B"⟩] :=
  ⟨(nav_fails_open [] false [⟨"m1", "/unmapped-route", "X"⟩] (by decide)).1
      ⟨"m1", "/unmapped-route", "X"⟩ (List.mem_singleton.mpr rfl) (by decide),
   (nav_fails_open [] false [⟨"m2", "/brands", "B"⟩] (by decide)).2 (by decide)⟩

/- ------------------------------------------------------------------ -/
/- Retry loop bounds (C6)                                              -/
/- ------------------------------------------------------------------ -/

/-- The retry loop performs at most `fuel` further fetches. -/
lemma goRetry_fetches_le (resp : Nat → FetchOut) (dur : Nat → Nat) :
    ∀ fuel attempt clock fetches sleeps lastErr,
      (goRetry resp dur fuel attempt clock fetches sleeps lastErr).fetches
        ≤ fetches + fuel := by
  intro fuel
  induction fuel with
  | zero =>
    intro attempt clock fetches sleeps lastErr
    simp [goRetry]
  | succ n ih =>
    intro attempt clock fetches sleeps lastErr
    simp only [goRetry]
    by_cases ht : clock > MAX_TOTAL_WAIT_TIME
    · rw [if_pos ht]
      by_cases hl : attempt = MAX_RETRIES - 1
      · rw [if_pos hl]
        show fetches ≤ fetches + (n + 1)
        omega
      · rw [if_neg hl]
        exact le_trans (ih _ _ _ _ _) (by omega)
    · rw [if_neg ht]
      cases hresp : resp fetches with
      | resp s =>
        dsimp only
        by_cases hc : (s = 502 ∨ s = 503) ∧ attempt < MAX_RETRIES - 1
        · rw [if_pos hc]
          exact le_trans (ih _ _ _ _ _) (by omega)
        · rw [if_neg hc]
          show fetches + 1 ≤ fetches + (n + 1)
          omega
      | err =>
        dsimp only
        by_cases hl : attempt = MAX_RETRIES - 1
        · rw [if_pos hl]
          show fetches + 1 ≤ fetches + (n + 1)
          omega
        · rw [if_neg hl]
          exact le_trans (ih _ _ _ _ _) (by omega)

/-- Starting from a sleep log of the first `n` backoff delays at attempt
index `n`, the retry loop only ever extends it to a longer initial segment of
the backoff schedule. -/
lemma goRetry_sleeps_shape (resp : Nat → FetchOut) (dur : Nat → Nat) :
    ∀ fuel n clock fetches lastErr,
      ∃ m, (goRetry resp dur fuel n clock fetches ((List.range n).map retryDelay) lastErr).sleeps
          = (List.range m).map retryDelay := by
  intro fuel
  induction fuel with
  | zero =>
    intro n clock fetches lastErr
    exact ⟨n, rfl⟩
  | succ k ih =>
    intro n clock fetches lastErr
    have hstep : (List.range n).map retryDelay ++ [retryDelay n]
        = (List.range (n + 1)).map retryDelay := by
      rw [List.range_succ, List.map_append, List.map_cons, List.map_nil]
    simp only [goRetry]
    by_cases ht : clock > MAX_TOTAL_WAIT_TIME
    · rw [if_pos ht]
      by_cases hl : n = MAX_RETRIES - 1
      · rw [if_pos hl]; exact ⟨n, rfl⟩
      · rw [if_neg hl, hstep]
        exact ih (n + 1) _ _ _
    · rw [if_neg ht]
      cases hresp : resp fetches with
      | resp s =>
        dsimp only
        by_cases hc : (s = 502 ∨ s = 503) ∧ n < MAX_RETRIES - 1
        · rw [if_pos hc, hstep]
          exact ih (n + 1) _ _ _
        · rw [if_neg hc]; exact ⟨n, rfl⟩
      | err =>
        dsimp only
        by_cases hl : n = MAX_RETRIES - 1
        · rw [if_pos hl]; exact ⟨n, rfl⟩
        · rw [if_neg hl, hstep]
          exact ih (n + 1) _ _ _

/-- Once the measured elapsed time exceeds the ceiling, the loop performs no
further fetch and ends by throwing: the timeout error when fuel remains, the
prior error if it was already exhausted. -/
lemma goRetry_timeout (resp : Nat → FetchOut) (dur : Nat → Nat) :
    ∀ fuel attempt clock fetches sleeps lastErr,
      clock > MAX_TOTAL_WAIT_TIME →
      (goRetry resp dur fuel attempt clock fetches sleeps lastErr).fetches = fetches
      ∧ (goRetry resp dur fuel attempt clock fetches sleeps lastErr).result
          = .threw (if fuel = 0 then lastErr else .timeoutErr) := by
  intro fuel
  induction fuel with
  | zero =>
    intro attempt clock fetches sleeps lastErr ht
    exact ⟨rfl, rfl⟩
  | succ n ih =>
    intro attempt clock fetches sleeps lastErr ht
    simp only [goRetry]
    rw [if_pos ht]
    by_cases hl : attempt = MAX_RETRIES - 1
    · rw [if_pos hl]
      exact ⟨rfl, by simp⟩
    · rw [if_neg hl]
      have ht' : clock + retryDelay attempt > MAX_TOTAL_WAIT_TIME :=
        lt_of_lt_of_le ht (Nat.le_add_right _ _)
      obtain ⟨h1, h2⟩ := ih (attempt + 1) (clock + retryDelay attempt) fetches
        (sleeps ++ [retryDelay attempt]) .timeoutErr ht'
      refine ⟨h1, ?_⟩
      rw [h2]
      cases n <;> rfl

/-- C6: for a backend answering only 502/503, `fetchWithRetry` performs at
most 8 fetches, its sleeps are exactly an initial segment of the schedule
`min(2000 * 2 ^ k, 32000)` milliseconds (i.e. `min(2 * 2 ^ k, 32)` seconds
after the k-th failed attempt), and from any state whose elapsed wall-clock
time exceeds one hour the call performs no further fetch and fails with the
timeout error regardless of the attempts remaining. -/
theorem retry_backoff_and_timeout (resp : Nat → FetchOut) (dur : Nat → Nat)
    (hresp : ∀ n, resp n = .resp 502 ∨ resp n = .resp 503) :
    (fetchWithRetry resp dur).fetches ≤ 8
    ∧ (∃ m, (fetchWithRetry resp dur).sleeps
        = (List.range m).map (fun k => min (2000 * 2 ^ k) 32000))
    ∧ (∀ fuel attempt clock fetches sleeps lastErr,
        1 ≤ fuel → clock > 60 * 60 * 1000 →
        (goRetry resp dur fuel attempt clock fetches sleeps lastErr).result
            = .threw .timeoutErr
        ∧ (goRetry resp dur fuel attempt clock fetches sleeps lastErr).fetches
            = fetches) := by
  refine ⟨?_, ?_, ?_⟩
  · exact goRetry_fetches_le resp dur MAX_RETRIES 0 0 0 [] .noErr
  · obtain ⟨m, hm⟩ := goRetry_sleeps_shape resp dur MAX_RETRIES 0 0 0 .noErr
    exact ⟨m, hm⟩
  · intro fuel attempt clock fetches sleeps lastErr hfuel ht
    obtain ⟨h1, h2⟩ := goRetry_timeout resp dur fuel attempt clock fetches sleeps lastErr ht
    refine ⟨?_, h1⟩
    rw [h2]
    cases fuel with
    | zero => omega
    | succ n => rfl

/-- Witness for C6 at the constant-503 backend with instantaneous fetches. -/
theorem retry_backoff_and_timeout_witness :
    (fetchWithRetry (fun _ => FetchOut.resp 503) (fun _ => 0)).fetches ≤ 8
    ∧ (∃ m, (fetchWithRetry (fun _ => FetchOut.resp 503) (fun _ => 0)).sleeps
        = (List.range m).map (fun k => min (2000 * 2 ^ k) 32000))
    ∧ (∀ fuel attempt clock fetches sleeps lastErr,
        1 ≤ fuel → clock > 60 * 60 * 1000 →
        (goRetry (fun _ => FetchOut.resp 503) (fun _ => 0) fuel attempt clock fetches sleeps lastErr).result
            = .threw .timeoutErr
        ∧ (goRetry (fun _ => FetchOut.resp 503) (fun _ => 0) fuel attempt clock fetches sleeps lastErr).fetches
            = fetches) :=
  retry_backoff_and_timeout (fun _ => FetchOut.resp 503) (fun _ => 0)
    (fun _ => Or.inr rfl)

/- ------------------------------------------------------------------ -/
/- Merge semantics (C3, C8)                                            -/
/- ------------------------------------------------------------------ -/

/-- Status of the first record with the given description (the `findIndex` /
lookup view of a record list). -/
def statusOfDescr (l : List Privilege) (d : String) : Option Status :=
  match l.find? (fun p => p.description == d) with
  | some p => some p.status
  | none => none

/-- Whether some record with the given description is active. -/
def effActive (l : List Privilege) (d : String) : Bool :=
  l.any (fun p => p.description == d && isActive p.status)

/-- Status assigned to description `d` in module `M` of a privilege map. -/
def mapStatus (m : UserPrivileges) (M d : String) : Option Status :=
  match lookupAssoc m M with
  | some l => statusOfDescr l d
  | none => none

/-- All statuses in the list are normalized strings (as `fetchRolePrivileges`
guarantees for every fetched per-role map). -/
def normalizedList (l : List Privilege) : Prop :=
  ∀ p ∈ l, p.status = Status.strActive ∨ p.status = Status.strInactive

/-- Each description occurs at most once in the list. -/
def nodupDescrs (l : List Privilege) : Prop :=
  (l.map Privilege.description).Nodup

/-- Well-formed per-role privilege map: distinct module keys (a JS object
cannot repeat keys), normalized statuses and per-module distinct
descriptions. -/
def wfMap (m : UserPrivileges) : Prop :=
  (keysOf m).Nodup ∧ ∀ kv ∈ m, normalizedList kv.2 ∧ nodupDescrs kv.2

/-- A one-module, one-record map with a normalized status is well formed. -/
lemma wfMap_singleton (k d : String) (s : Status)
    (h : s = Status.strActive ∨ s = Status.strInactive) :
    wfMap [(k, [⟨d, s⟩])] := by
  refine ⟨List.nodup_singleton _, ?_⟩
  intro kv hkv
  rw [List.mem_singleton] at hkv
  subst hkv
  refine ⟨?_, List.nodup_singleton _⟩
  intro p hp
  rw [List.mem_singleton] at hp
  subst hp
  exact h

lemma statusOfDescr_eq_none (l : List Privilege) (d : String)
    (h : containsDescr d l = false) : statusOfDescr l d = none := by
  induction l with
  | nil => rfl
  | cons p rest ih =>
    simp only [containsDescr, List.any_cons, Bool.or_eq_false_iff] at h
    simp only [statusOfDescr, List.find?_cons, h.1]
    have := ih (by simpa [containsDescr] using h.2)
    simpa [statusOfDescr] using this

lemma effActive_eq_false (l : List Privilege) (d : String)
    (h : containsDescr d l = false) : effActive l d = false := by
  simp only [containsDescr, List.any_eq_false] at h
  simp only [effActive, List.any_eq_false]
  intro p hp
  simp [h p hp]

lemma containsDescr_setActiveFirst (d d' : String) (l : List Privilege) :
    containsDescr d' (setActiveFirst d l) = containsDescr d' l := by
  induction l with
  | nil => rfl
  | cons p rest ih =>
    by_cases hp : p.description = d
    · simp [setActiveFirst, hp, containsDescr]
    · simp only [setActiveFirst, if_neg hp, containsDescr, List.any_cons]
      rw [show (List.any (setActiveFirst d rest) fun p => p.description == d')
          = containsDescr d' (setActiveFirst d rest) from rfl, ih]
      rfl

lemma setActiveFirst_status_self (d : String) (l : List Privilege) :
    statusOfDescr (setActiveFirst d l) d
      = if containsDescr d l = true then some Status.strActive else none := by
  induction l with
  | nil => rfl
  | cons p rest ih =>
    by_cases hp : p.description = d
    · simp [setActiveFirst, hp, statusOfDescr, List.find?_cons, containsDescr]
    · simp only [setActiveFirst, if_neg hp, statusOfDescr, List.find?_cons,
        containsDescr, List.any_cons]
      have hbeq : (p.description == d) = false := by simp [hp]
      simp only [hbeq, Bool.false_or, cond_false]
      simpa [statusOfDescr, containsDescr] using ih

lemma setActiveFirst_status_other (d d' : String) (l : List Privilege)
    (h : d' ≠ d) :
    statusOfDescr (setActiveFirst d l) d' = statusOfDescr l d' := by
  induction l with
  | nil => rfl
  | cons p rest ih =>
    by_cases hp : p.description = d
    · have hbeq : (p.description == d') = false := by
        simp only [hp, beq_eq_false_iff_ne]
        exact Ne.symm h
      simp only [setActiveFirst, if_pos hp, statusOfDescr, List.find?_cons]
      simp [hbeq]
    · by_cases hp' : p.description = d'
      · have hbeq : (p.description == d') = true := by simp [hp']
        simp only [setActiveFirst, if_neg hp, statusOfDescr, List.find?_cons]
        simp [hbeq]
      · have hbeq : (p.description == d') = false := by simp [hp']
        simp only [setActiveFirst, if_neg hp, statusOfDescr, List.find?_cons, hbeq, cond_false]
        simpa [statusOfDescr] using ih

lemma containsDescr_append_single (l : List Privilege) (q : Privilege) (d : String) :
    containsDescr d (l ++ [q]) = (containsDescr d l || (q.description == d)) := by
  simp [containsDescr, List.any_append]

lemma statusOfDescr_append_single (l : List Privilege) (q : Privilege) (d : String) :
    statusOfDescr (l ++ [q]) d
      = match statusOfDescr l d with
        | some s => some s
        | none => if q.description = d then some q.status else none := by
  induction l with
  | nil =>
    by_cases hq : q.description = d <;> simp [statusOfDescr, List.find?_cons, hq]
  | cons p rest ih =>
    by_cases hp : p.description = d
    · simp [statusOfDescr, List.find?_cons, hp]
    · have hbeq : (p.description == d) = false := by simp [hp]
      simp only [List.cons_append, statusOfDescr, List.find?_cons, hbeq, cond_false]
      simpa [statusOfDescr] using ih

lemma containsDescr_mergeStep (X : List Privilege) (p : Privilege) (d : String) :
    containsDescr d (mergeStep X p) = (containsDescr d X || (p.description == d)) := by
  unfold mergeStep
  by_cases hc : containsDescr p.description X = true
  · rw [if_pos hc]
    by_cases ha : isActive p.status = true
    · rw [if_pos ha, containsDescr_setActiveFirst]
      by_cases hd : p.description = d
      · subst hd; simp [hc]
      · simp [hd]
    · rw [if_neg ha]
      by_cases hd : p.description = d
      · subst hd; simp [hc]
      · simp [hd]
  · rw [if_neg hc, containsDescr_append_single]

lemma statusOfDescr_mergeStep (X : List Privilege) (p : Privilege) (d : String) :
    statusOfDescr (mergeStep X p) d
      = if p.description = d then
          (if containsDescr d X = true then
            (if isActive p.status = true then some Status.strActive else statusOfDescr X d)
           else some (normalizeStatus p.status))
        else statusOfDescr X d := by
  unfold mergeStep
  by_cases hd : p.description = d
  · subst hd
    rw [if_pos rfl]
    by_cases hc : containsDescr p.description X = true
    · rw [if_pos hc, if_pos hc]
      by_cases ha : isActive p.status = true
      · rw [if_pos ha, if_pos ha, setActiveFirst_status_self, if_pos hc]
      · rw [if_neg ha, if_neg ha]
    · have hc' : containsDescr p.description X = false := by simpa using hc
      rw [if_neg hc, if_neg hc, statusOfDescr_append_single,
        statusOfDescr_eq_none X p.description hc']
      simp
  · rw [if_neg hd]
    have hne : d ≠ p.description := fun hh => hd hh.symm
    by_cases hc : containsDescr p.description X = true
    · rw [if_pos hc]
      by_cases ha : isActive p.status = true
      · rw [if_pos ha, setActiveFirst_status_other _ _ _ hne]
      · rw [if_neg ha]
    · rw [if_neg hc, statusOfDescr_append_single]
      cases hX : statusOfDescr X d <;> simp [hd]

/-- Characterization of `mergePrivileges` at the per-description level, for
arbitrary record lists: an existing description keeps its first-occurrence
status unless some active incoming record escalates it, and a new description
is appended with its normalized status, escalated by later duplicates. -/
lemma mergePrivileges_statusOfDescr (Y : List Privilege) :
    ∀ (X : List Privilege) (d : String),
      statusOfDescr (mergePrivileges X Y) d
        = if containsDescr d X = true then
            (if effActive Y d = true then some Status.strActive else statusOfDescr X d)
          else
            (if containsDescr d Y = true then
              (if effActive Y d = true then some Status.strActive else some Status.strInactive)
             else none) := by
  induction Y with
  | nil =>
    intro X d
    show statusOfDescr X d = _
    rw [show containsDescr d ([] : List Privilege) = false from rfl,
      show effActive ([] : List Privilege) d = false from rfl]
    by_cases hc : containsDescr d X = true
    · simp [hc]
    · have hc' : containsDescr d X = false := by simpa using hc
      simp [hc', statusOfDescr_eq_none X d hc']
  | cons p Y ih =>
    intro X d
    show statusOfDescr (mergePrivileges (mergeStep X p) Y) d = _
    rw [ih (mergeStep X p) d, containsDescr_mergeStep, statusOfDescr_mergeStep]
    rw [show containsDescr d (p :: Y) = ((p.description == d) || containsDescr d Y) from
      by simp [containsDescr, List.any_cons]]
    rw [show effActive (p :: Y) d
        = (((p.description == d) && isActive p.status) || effActive Y d) from
      by simp [effActive, List.any_cons]]
    by_cases hd : p.description = d
    · subst hd
      simp only [beq_self_eq_true, Bool.true_and, Bool.true_or, if_pos rfl]
      by_cases hc : containsDescr p.description X = true <;>
        by_cases ha : isActive p.status = true <;>
        by_cases he : effActive Y p.description = true <;>
        simp [hc, ha, he, normalizeStatus]
    · have hbd : (p.description == d) = false := by simp [hd]
      simp only [hbd, Bool.false_and, Bool.false_or, Bool.or_false, if_neg hd]

/-- In a normalized list without duplicate descriptions, the looked-up status
of a present description is active exactly when some record for it is active. -/
lemma wf_statusOfDescr (l : List Privilege) (d : String)
    (hn : normalizedList l) (hd : nodupDescrs l)
    (hc : containsDescr d l = true) :
    statusOfDescr l d
      = some (if effActive l d = true then Status.strActive else Status.strInactive) := by
  induction l with
  | nil => simp [containsDescr] at hc
  | cons p rest ih =>
    by_cases hpd : p.description = d
    · have hnotin : p.description ∉ rest.map Privilege.description := by
        have := hd
        simp only [nodupDescrs, List.map_cons, List.nodup_cons] at this
        exact this.1
      have hrest : containsDescr d rest = false := by
        cases hx : containsDescr d rest with
        | false => rfl
        | true =>
          exfalso
          obtain ⟨q, hq, hqd⟩ := List.any_eq_true.mp
            (show rest.any (fun p => p.description == d) = true from hx)
          have hqd' : q.description = d := by simpa using hqd
          have hmem : q.description ∈ rest.map Privilege.description :=
            List.mem_map_of_mem Privilege.description hq
          rw [hqd', ← hpd] at hmem
          exact hnotin hmem
      have heRest : effActive rest d = false := effActive_eq_false rest d hrest
      have hbeq : (p.description == d) = true := by simp [hpd]
      have hcons : effActive (p :: rest) d
          = (((p.description == d) && isActive p.status) || effActive rest d) := by
        simp [effActive, List.any_cons]
      rw [hcons, heRest, hbeq]
      rcases hn p (List.mem_cons_self p rest) with hs | hs <;>
        simp [statusOfDescr, List.find?_cons, hbeq, hs, isActive]
    · have hbeq : (p.description == d) = false := by simp [hpd]
      have hcRest : containsDescr d rest = true := by
        simpa [containsDescr, List.any_cons, hbeq] using hc
      have hnRest : normalizedList rest := fun q hq => hn q (List.mem_cons_of_mem p hq)
      have hdRest : nodupDescrs rest := by
        have := hd
        simp only [nodupDescrs, List.map_cons, List.nodup_cons] at this
        exact this.2
      have := ih hnRest hdRest hcRest
      simp only [statusOfDescr, List.find?_cons, hbeq, cond_false, effActive,
        List.any_cons, Bool.false_and, Bool.false_or] at this ⊢
      exact this

/-- For well-formed record lists, merging in either order assigns every
description the same status: active when either side grants it actively,
otherwise the inactive grant survives. -/
lemma mergePrivileges_comm_status (lA lB : List Privilege) (d : String)
    (hnA : normalizedList lA) (hdA : nodupDescrs lA)
    (hnB : normalizedList lB) (hdB : nodupDescrs lB) :
    statusOfDescr (mergePrivileges lA lB) d
      = statusOfDescr (mergePrivileges lB lA) d := by
  rw [mergePrivileges_statusOfDescr lB lA d, mergePrivileges_statusOfDescr lA lB d]
  by_cases hA : containsDescr d lA = true <;> by_cases hB : containsDescr d lB = true
  · rw [wf_statusOfDescr lA d hnA hdA hA, wf_statusOfDescr lB d hnB hdB hB]
    simp only [hA, hB, if_pos rfl]
    by_cases eA : effActive lA d = true <;> by_cases eB : effActive lB d = true <;>
      simp [eA, eB]
  · have hB' : containsDescr d lB = false := by simpa using hB
    have eB : effActive lB d = false := effActive_eq_false lB d hB'
    rw [wf_statusOfDescr lA d hnA hdA hA]
    simp only [hA, hB', eB]
    by_cases eA : effActive lA d = true <;> simp [eA]
  · have hA' : containsDescr d lA = false := by simpa using hA
    have eA : effActive lA d = false := effActive_eq_false lA d hA'
    rw [wf_statusOfDescr lB d hnB hdB hB]
    simp only [hA', hB, eA]
    by_cases eB : effActive lB d = true <;> simp [eB]
  · have hA' : containsDescr d lA = false := by simpa using hA
    have hB' : containsDescr d lB = false := by simpa using hB
    simp [hA', hB']

lemma lookupAssoc_setKey_self {α : Type} (m : List (String × α)) (k : String) (v : α) :
    lookupAssoc (setKey m k v) k = some v := by
  induction m with
  | nil => simp [setKey, lookupAssoc]
  | cons kv rest ih =>
    by_cases h : kv.1 = k
    · simp [setKey, h, lookupAssoc]
    · simp [setKey, h, lookupAssoc, ih]

lemma lookupAssoc_setKey_other {α : Type} (m : List (String × α)) (k : String) (v : α)
    (k' : String) (h : k' ≠ k) :
    lookupAssoc (setKey m k v) k' = lookupAssoc m k' := by
  induction m with
  | nil => simp [setKey, lookupAssoc, Ne.symm h]
  | cons kv rest ih =>
    by_cases hk : kv.1 = k
    · subst hk
      simp [setKey, lookupAssoc, Ne.symm h]
    · by_cases hk' : kv.1 = k'
      · rw [show setKey (kv :: rest) k v = kv :: setKey rest k v from by simp [setKey, hk]]
        rw [lookupAssoc, if_pos hk', lookupAssoc, if_pos hk']
      · simp [setKey, hk, lookupAssoc, hk', ih]

lemma lookupAssoc_eq_none_iff {α : Type} (m : List (String × α)) (k : String) :
    lookupAssoc m k = none ↔ k ∉ keysOf m := by
  induction m with
  | nil => simp [lookupAssoc, keysOf]
  | cons kv rest ih =>
    by_cases h : kv.1 = k
    · simp [lookupAssoc, h, keysOf]
    · simp [lookupAssoc, h, keysOf, Ne.symm h]
      simpa [keysOf] using ih

lemma lookupAssoc_mem {α : Type} (m : List (String × α)) (k : String) (v : α)
    (h : lookupAssoc m k = some v) : (k, v) ∈ m := by
  induction m with
  | nil => simp [lookupAssoc] at h
  | cons kv rest ih =>
    by_cases hk : kv.1 = k
    · rw [lookupAssoc, if_pos hk] at h
      cases h
      rw [← hk]
      exact List.mem_cons_self kv rest
    · rw [lookupAssoc, if_neg hk] at h
      exact List.mem_cons_of_mem kv (ih h)

/-- The per-role merge step leaves keys of the accumulator that the incoming
map does not mention untouched. -/
lemma mergeIntoMap_lookup_notkey (B : UserPrivileges) :
    ∀ (acc : UserPrivileges) (M : String), lookupAssoc B M = none →
      lookupAssoc (mergeIntoMap acc B) M = lookupAssoc acc M := by
  induction B with
  | nil => intro acc M _; rfl
  | cons kv rest ih =>
    intro acc M h
    rw [lookupAssoc] at h
    by_cases hk : kv.1 = M
    · rw [if_pos hk] at h; cases h
    · rw [if_neg hk] at h
      show lookupAssoc (mergeIntoMap
        (match lookupAssoc acc kv.1 with
          | some ex => setKey acc kv.1 (mergePrivileges ex kv.2)
          | none => setKey acc kv.1 kv.2) rest) M = lookupAssoc acc M
      rw [ih _ M h]
      cases hacc : lookupAssoc acc kv.1 <;>
        simp [lookupAssoc_setKey_other _ _ _ M (fun hh => hk hh.symm)]

/-- Lookup through one merged-in role map, for a role map with distinct
module keys: modules it mentions are merged (or taken verbatim), others pass
through. -/
lemma mergeIntoMap_lookup (B : UserPrivileges) :
    ∀ (acc : UserPrivileges) (M : String), (keysOf B).Nodup →
      lookupAssoc (mergeIntoMap acc B) M
        = match lookupAssoc B M with
          | none => lookupAssoc acc M
          | some l =>
            some (match lookupAssoc acc M with
                  | some ex => mergePrivileges ex l
                  | none => l) := by
  induction B with
  | nil => intro acc M _; rfl
  | cons kv rest ih =>
    intro acc M hnd
    have hnd1 : kv.1 ∉ keysOf rest := by
      have := hnd
      simp only [keysOf, List.map_cons, List.nodup_cons] at this
      exact fun hh => this.1 (by simpa [keysOf] using hh)
    have hnd2 : (keysOf rest).Nodup := by
      have := hnd
      simp only [keysOf, List.map_cons, List.nodup_cons] at this
      simpa [keysOf] using this.2
    show lookupAssoc (mergeIntoMap
      (match lookupAssoc acc kv.1 with
        | some ex => setKey acc kv.1 (mergePrivileges ex kv.2)
        | none => setKey acc kv.1 kv.2) rest) M = _
    by_cases hk : kv.1 = M
    · subst hk
      have hrest : lookupAssoc rest kv.1 = none :=
        (lookupAssoc_eq_none_iff rest kv.1).mpr hnd1
      rw [mergeIntoMap_lookup_notkey rest _ kv.1 hrest]
      rw [show lookupAssoc (kv :: rest) kv.1 = some kv.2 from by rw [lookupAssoc, if_pos rfl]]
      cases hacc : lookupAssoc acc kv.1 <;>
        simp [hacc, lookupAssoc_setKey_self]
    · rw [ih _ M hnd2]
      rw [show lookupAssoc (kv :: rest) M = lookupAssoc rest M from by
        rw [lookupAssoc, if_neg hk]]
      have hother : ∀ v, lookupAssoc (setKey acc kv.1 v) M = lookupAssoc acc M :=
        fun v => lookupAssoc_setKey_other acc kv.1 v M (fun hh => hk hh.symm)
      cases hacc : lookupAssoc acc kv.1 <;>
        cases hrest : lookupAssoc rest M <;>
        simp [hother]

/-- Lookup in the merge of exactly two per-role maps. -/
lemma mergeAll_pair_lookup (A B : UserPrivileges) (M : String)
    (hA : (keysOf A).Nodup) (hB : (keysOf B).Nodup) :
    lookupAssoc (mergeAll [A, B]) M
      = match lookupAssoc A M, lookupAssoc B M with
        | some lA, some lB => some (mergePrivileges lA lB)
        | some lA, none => some lA
        | none, some lB => some lB
        | none, none => none := by
  show lookupAssoc (mergeIntoMap (mergeIntoMap [] A) B) M = _
  rw [mergeIntoMap_lookup B _ M hB, mergeIntoMap_lookup A [] M hA]
  cases hA' : lookupAssoc A M <;> cases hB' : lookupAssoc B M <;>
    simp [lookupAssoc]

/-- A key absent from every constituent map is absent from the merge. -/
lemma mergeAll_lookup_none (maps : List UserPrivileges) (k : String)
    (h : ∀ m ∈ maps, lookupAssoc m k = none) :
    lookupAssoc (mergeAll maps) k = none := by
  have haux : ∀ (ms : List UserPrivileges) (acc : UserPrivileges),
      (∀ m ∈ ms, lookupAssoc m k = none) → lookupAssoc acc k = none →
      lookupAssoc (List.foldl mergeIntoMap acc ms) k = none := by
    intro ms
    induction ms with
    | nil => intro acc _ hacc; exact hacc
    | cons m rest ih =>
      intro acc hms hacc
      rw [List.foldl_cons]
      refine ih _ (fun m' hm' => hms m' (List.mem_cons_of_mem m hm')) ?_
      rw [mergeIntoMap_lookup_notkey m acc k (hms m (List.mem_cons_self m rest))]
      exact hacc
  exact haux maps [] h rfl

/-- C3 counterexample: when one role's module list carries the same
description twice, an inactive copy before an active copy, the merged status
of that description depends on the merge order (the `findIndex`-based
escalation only ever touches the first copy), and merging that role first
leaves the description looked up as inactive even though the other role has
it inactive and this role has it active. -/
theorem merge_order_counterexample :
    mapStatus (mergeAll [[("M", [⟨"d", .strInactive⟩])],
                         [("M", [⟨"d", .strInactive⟩, ⟨"d", .strActive⟩])]]) "M" "d"
      = some Status.strActive
    ∧ mapStatus (mergeAll [[("M", [⟨"d", .strInactive⟩, ⟨"d", .strActive⟩])],
                           [("M", [⟨"d", .strInactive⟩])]]) "M" "d"
      = some Status.strInactive := by decide

/-- C3: when role A grants a description inactively and role B grants the
same description actively in the same module, the consolidated privilege set
assigns that description the active status, and for well-formed per-role maps
(distinct JS object keys, normalized statuses, one record per description per
module) the assigned statuses are identical whichever of the two maps is
merged first. -/
theorem merge_active_dominates_order_independent (A B : UserPrivileges)
    (M d : String) (hwfA : wfMap A) (hwfB : wfMap B)
    (hA : ∃ lA, lookupAssoc A M = some lA ∧
      ∃ p ∈ lA, p.description = d ∧ p.status = Status.strInactive)
    (hB : ∃ lB, lookupAssoc B M = some lB ∧
      ∃ p ∈ lB, p.description = d ∧ p.status = Status.strActive) :
    mapStatus (mergeAll [A, B]) M d = some Status.strActive
    ∧ ∀ M' d', mapStatus (mergeAll [A, B]) M' d'
        = mapStatus (mergeAll [B, A]) M' d' := by
  constructor
  · obtain ⟨lA, hlA, pA, hpA, hdA, hsA⟩ := hA
    obtain ⟨lB, hlB, pB, hpB, hdB, hsB⟩ := hB
    unfold mapStatus
    rw [mergeAll_pair_lookup A B M hwfA.1 hwfB.1, hlA, hlB]
    dsimp only
    rw [mergePrivileges_statusOfDescr lB lA d]
    have hcA : containsDescr d lA = true :=
      List.any_eq_true.mpr ⟨pA, hpA, by simp [hdA]⟩
    have heB : effActive lB d = true :=
      List.any_eq_true.mpr ⟨pB, hpB, by simp [hdB, hsB, isActive]⟩
    simp [hcA, heB]
  · intro M' d'
    unfold mapStatus
    rw [mergeAll_pair_lookup A B M' hwfA.1 hwfB.1,
      mergeAll_pair_lookup B A M' hwfB.1 hwfA.1]
    cases hA' : lookupAssoc A M' with
    | none =>
      cases hB' : lookupAssoc B M' with
      | none => rfl
      | some lB' => rfl
    | some lA' =>
      cases hB' : lookupAssoc B M' with
      | none => rfl
      | some lB' =>
        dsimp only
        obtain ⟨hnA', hdA'⟩ := hwfA.2 (M', lA') (lookupAssoc_mem A M' lA' hA')
        obtain ⟨hnB', hdB'⟩ := hwfB.2 (M', lB') (lookupAssoc_mem B M' lB' hB')
        exact mergePrivileges_comm_status lA' lB' d' hnA' hdA' hnB' hdB'

/-- Witness for C3 at two singleton role maps disagreeing on the status of
"Create a new Brand". -/
theorem merge_active_dominates_order_independent_witness :
    wfMap [("BRANDS", [(⟨"Create a new Brand", .strInactive⟩ : Privilege)])]
    ∧ wfMap [("BRANDS", [(⟨"Create a new Brand", .strActive⟩ : Privilege)])]
    ∧ mapStatus (mergeAll
        [[("BRANDS", [(⟨"Create a new Brand", .strInactive⟩ : Privilege)])],
         [("BRANDS", [(⟨"Create a new Brand", .strActive⟩ : Privilege)])]])
        "BRANDS" "Create a new Brand" = some Status.strActive :=
  ⟨wfMap_singleton "BRANDS" "Create a new Brand" .strInactive (Or.inr rfl),
   wfMap_singleton "BRANDS" "Create a new Brand" .strActive (Or.inl rfl),
    (merge_active_dominates_order_independent
      [("BRANDS", [⟨"Create a new Brand", .strInactive⟩])]
      [("BRANDS", [⟨"Create a new Brand", .strActive⟩])]
      "BRANDS" "Create a new Brand"
      (wfMap_singleton "BRANDS" "Create a new Brand" .strInactive (Or.inr rfl))
      (wfMap_singleton "BRANDS" "Create a new Brand" .strActive (Or.inl rfl))
      ⟨[⟨"Create a new Brand", .strInactive⟩], rfl,
        ⟨"Create a new Brand", .strInactive⟩, List.mem_singleton.mpr rfl, rfl, rfl⟩
      ⟨[⟨"Create a new Brand", .strActive⟩], rfl,
        ⟨"Create a new Brand", .strActive⟩, List.mem_singleton.mpr rfl, rfl, rfl⟩).1⟩

/-- C8 counterexample: a backend role response whose privilege object itself
uses the module key "*" flows through the merge unfiltered, producing a set
in which the wildcard key coexists with a per-module key. -/
theorem wildcard_sentinel_counterexample :
    ¬ (keysOf (fetchUserPrivilegesForRoles []
          (fun _ => some [("*", [⟨"Backend wildcard", Status.strActive⟩]),
                          ("BRANDS", [⟨"Get all Brands", Status.strActive⟩])])
          ["STORE_KEEPER"] none).1 = ["*"]
       ∨ lookupAssoc (fetchUserPrivilegesForRoles []
          (fun _ => some [("*", [⟨"Backend wildcard", Status.strActive⟩]),
                          ("BRANDS", [⟨"Get all Brands", Status.strActive⟩])])
          ["STORE_KEEPER"] none).1 "*" = none) := by decide

/-- C8 amended: provided no fetched per-role privilege map itself carries the
module key "*", every set produced by `fetchUserPrivilegesForRoles` either is
the wildcard singleton (super-admin short-circuits) or lacks "*" entirely. -/
theorem wildcard_sentinel_isolated (emails : List String)
    (backend : String → Option UserPrivileges)
    (roleCodes : List String) (userEmail : Option String)
    (h : ∀ r ∈ roleCodes, lookupAssoc (fetchRolePrivileges backend r) "*" = none) :
    keysOf (fetchUserPrivilegesForRoles emails backend roleCodes userEmail).1 = ["*"]
    ∨ lookupAssoc (fetchUserPrivilegesForRoles emails backend roleCodes userEmail).1 "*"
        = none := by
  unfold fetchUserPrivilegesForRoles
  by_cases hb : emailBypass emails userEmail = true
  · rw [if_pos hb]; left; rfl
  · rw [if_neg hb]
    by_cases hs : isSuperAdmin roleCodes = true
    · rw [if_pos hs]; left; rfl
    · rw [if_neg hs]
      right
      apply mergeAll_lookup_none
      intro m hm
      obtain ⟨r, hr, rfl⟩ := List.mem_map.mp hm
      exact h r hr

/-- Witness for the amended C8 at a backend whose role map has no "*" key. -/
theorem wildcard_sentinel_isolated_witness :
    (∀ r ∈ ["STORE_KEEPER"],
      lookupAssoc (fetchRolePrivileges
        (fun _ => some [("BRANDS", [⟨"Get all Brands", Status.strActive⟩])]) r) "*" = none)
    ∧ (keysOf (fetchUserPrivilegesForRoles []
          (fun _ => some [("BRANDS", [⟨"Get all Brands", Status.strActive⟩])])
          ["STORE_KEEPER"] none).1 = ["*"]
       ∨ lookupAssoc (fetchUserPrivilegesForRoles []
          (fun _ => some [("BRANDS", [⟨"Get all Brands", Status.strActive⟩])])
          ["STORE_KEEPER"] none).1 "*" = none) :=
  ⟨by decide,
    wildcard_sentinel_isolated []
      (fun _ => some [("BRANDS", [⟨"Get all Brands", Status.strActive⟩])])
      ["STORE_KEEPER"] none (by decide)⟩

end BookApp
